import Mathlib

/-!
A shallow embedding of the tslint rule `no-implicit-dependencies`
(src/rules/noImplicitDependenciesRule.ts) and proofs about it.

Modelling conventions:
* Directory paths are segment lists with the innermost segment first, so
  `path.dirname` is `List.tail` (and the dirname of the root, the empty
  list, is itself — the loop's `prev === current` fixed point), and
  `path.join(dir, "package.json")` is `"package.json" :: dir`.  A file
  path likewise has the file's own name as its head, so the directory
  containing it is its tail; `path.resolve` is the identity on these
  already-absolute paths.
* `Set<string>` is modelled as `List String` whose membership is the set
  membership (`Set.prototype.has` is `List.contains`); `Set.add` over the
  own keys of a section is list append of the key list.
* External collaborators (the filesystem, `fs.readFileSync` + BOM strip +
  `JSON.parse`, `ts.isExternalModuleNameRelative`, the builtin-modules
  list) are fields of an `Env` record; a failing read or parse of any
  kind is `none`.
* Source locations of references are abstract (`Nat`).
-/

namespace NoImplicitDependencies

/-- The rule's parsed options (interface `Options`). -/
structure Options where
  dev : Bool
  optional : Bool
  ignore : List String

/-- The parsed package.json (interface `PackageJson`): each section, when
present, is the list of its own keys — the package names; the values
(version specifiers) are ignored by the rule. -/
structure PackageJson where
  dependencies : Option (List String)
  devDependencies : Option (List String)
  peerDependencies : Option (List String)
  optionalDependencies : Option (List String)

/-- One reference returned by the import extractor (`findImports`): its raw
module text and its source position. -/
structure Ref where
  text : String
  loc : Nat

/-- A reported rule failure: the reference's position and the message. -/
structure Finding where
  loc : Nat
  message : String

/-- The external collaborators the rule calls into. -/
structure Env where
  pathExists : List String → Bool
  readPackageJson : List String → Option PackageJson
  isExternalModuleNameRelative : String → Bool
  builtins : List String

/-- The per-file walk context: the source file's path (innermost segment
first), the reference sequence `findImports` returns in source-text order,
and the rule options. -/
structure Ctx where
  fileName : List String
  refs : List Ref
  options : Options

/-- A character-level model of `name.split(/\//g)`: JavaScript split on the
separator `/` — the empty string splits to `[""]`, adjacent separators
produce empty segments, and the result is never the empty list. -/
def splitSlash : List Char → List String
  | [] => [""]
  | c :: cs =>
    let rest := splitSlash cs
    if c == '/' then "" :: rest
    else
      match rest with
      | [] => [String.mk [c]]
      | s :: ss => String.mk (c :: s.data) :: ss

/-- JavaScript template-literal interpolation of a possibly-undefined
string value: `undefined` prints as the string "undefined". -/
def templatePart : Option String → String
  | some s => s
  | none => "undefined"

/-- `getPackageName`: `name[0] !== "@"` (character access on the empty
string is `undefined`, hence `Option`) selects `parts[0]`; otherwise the
template literal joins `parts[0]` and `parts[1]`, where an absent
`parts[1]` interpolates as "undefined".  `splitSlash` never returns the
empty list, so the `headD` default is unreachable. -/
def getPackageName (name : String) : String :=
  let parts := splitSlash name.data
  if name.data.head? ≠ some '@' then parts.headD ""
  else templatePart parts.head? ++ "/" ++ templatePart parts[1]?

/-- `Rule.FAILURE_STRING_FACTORY`. -/
def failureStringFactory (module : String) : String :=
  "Module '" ++ module ++ "' is not listed as dependency in package.json"

/-- `findPackageJson`: the do-while loop walking up the directory tree.  At
the root (the empty segment list) `path.dirname` yields the same directory,
the loop's `prev !== current` guard fails, and the walk answers
`undefined`. -/
def findPackageJson (ex : List String → Bool) : List String → Option (List String)
  | [] =>
    if ex ["package.json"] then some ["package.json"] else none
  | d :: parent =>
    if ex ("package.json" :: d :: parent) then some ("package.json" :: d :: parent)
    else findPackageJson ex parent

/-- The same do-while loop with an explicit iteration budget: `none` means
the budget ran out before the loop exited on its own. -/
def findPackageJsonFuel (ex : List String → Bool) : Nat → List String → Option (Option (List String))
  | 0, _ => none
  | fuel + 1, current =>
    if ex ("package.json" :: current) then some (some ("package.json" :: current))
    else
      match current with
      | [] => some none
      | _ :: parent => findPackageJsonFuel ex fuel parent

/-- The directories the upward walk visits, innermost first, ending at the
root (the empty list). -/
def ancestors : List String → List (List String)
  | [] => [[]]
  | d :: parent => (d :: parent) :: ancestors parent

/-- `addDependencies`: `Set.add` for each own key of a section. -/
def addDependencies (result : List String) (dependencies : List String) : List String :=
  result ++ dependencies

/-- `getDependencies`: locate the nearest manifest above the file, read and
parse it (any failure is caught and treated as an empty manifest), then
union the selected sections. -/
def getDependencies (env : Env) (fileName : List String) (options : Options) : List String :=
  match findPackageJson env.pathExists fileName.tail with
  | none => []
  | some packageJsonPath =>
    match env.readPackageJson packageJsonPath with
    | none => []
    | some content =>
      let result : List String := []
      let result := match content.dependencies with
        | some d => addDependencies result d
        | none => result
      let result := if !options.dev then
          match content.peerDependencies with
          | some d => addDependencies result d
          | none => result
        else result
      let result := if options.dev then
          match content.devDependencies with
          | some d => addDependencies result d
          | none => result
        else result
      let result := if options.optional then
          match content.optionalDependencies with
          | some d => addDependencies result d
          | none => result
        else result
      result

/-- The body of `walk`: the loop over the extracted references, carrying
the memo cell `dependencies` of `shouldWarnAboutDependency` and a count of
how many times `getDependencies` has been called.  Returns the emitted
failures in order, the final memo cell, and the final call count. -/
def walkAux (env : Env) (fileName : List String) (options : Options) :
    List Ref → Option (List String) → Nat → List Finding × Option (List String) × Nat
  | [], cache, count => ([], cache, count)
  | r :: rs, cache, count =>
    if env.isExternalModuleNameRelative r.text then
      walkAux env fileName options rs cache count
    else
      let packageName := getPackageName r.text
      if env.builtins.contains packageName then
        walkAux env fileName options rs cache count
      else
        let deps := match cache with
          | none => getDependencies env fileName options
          | some d => d
        let count2 := match cache with
          | none => count + 1
          | some _ => count
        let hasDependency := deps.contains packageName
        let shouldIgnore := options.ignore.contains packageName
        let rest := walkAux env fileName options rs (some deps) count2
        if !(hasDependency || shouldIgnore) then
          (Finding.mk r.loc (failureStringFactory packageName) :: rest.1, rest.2)
        else rest

/-- `walk`: run the loop from an empty memo cell and a zero call count. -/
def walk (env : Env) (ctx : Ctx) : List Finding × Option (List String) × Nat :=
  walkAux env ctx.fileName ctx.options ctx.refs none 0

/-- The classification test a reference must pass for a failure to be
emitted, phrased against the memo-free dependency set. -/
def warnCond (env : Env) (deps : List String) (options : Options) (r : Ref) : Bool :=
  !env.isExternalModuleNameRelative r.text &&
    !env.builtins.contains (getPackageName r.text) &&
    !deps.contains (getPackageName r.text) &&
    !options.ignore.contains (getPackageName r.text)

/-- The Finding `walk` emits for a reference that passes `warnCond`, `none`
otherwise, phrased against the memo-free dependency set. -/
def findingFor (env : Env) (deps : List String) (options : Options) (r : Ref) : Option Finding :=
  if warnCond env deps options r then
    some (Finding.mk r.loc (failureStringFactory (getPackageName r.text)))
  else none

/-- The package-name derivation as the spec words it: for a text whose
first character is `@`, the first two slash-delimited segments joined by a
slash; otherwise the first segment. -/
def specPackageName (name : String) : String :=
  let parts := splitSlash name.data
  if name.data.head? = some '@' then String.intercalate "/" (parts.take 2)
  else parts.headD ""

theorem walkAux_findings_eq (env : Env) (fileName : List String) (options : Options)
    (refs : List Ref) :
    ∀ (cache : Option (List String)) (count : Nat),
      (cache = none ∨ cache = some (getDependencies env fileName options)) →
      (walkAux env fileName options refs cache count).1 =
        refs.filterMap (findingFor env (getDependencies env fileName options) options) := by
  induction refs with
  | nil =>
    intro cache count h
    simp [walkAux]
  | cons r rs ih =>
    intro cache count h
    have ih2 : ∀ count2 : Nat,
        (walkAux env fileName options rs (some (getDependencies env fileName options)) count2).1 =
          rs.filterMap (findingFor env (getDependencies env fileName options) options) :=
      fun count2 => ih (some (getDependencies env fileName options)) count2 (Or.inr rfl)
    have ihn : ∀ count2 : Nat,
        (walkAux env fileName options rs none count2).1 =
          rs.filterMap (findingFor env (getDependencies env fileName options) options) :=
      fun count2 => ih none count2 (Or.inl rfl)
    rcases h with h | h <;> subst h <;>
      by_cases hrel : env.isExternalModuleNameRelative r.text = true <;>
      by_cases hbi : getPackageName r.text ∈ env.builtins <;>
      by_cases hdep : getPackageName r.text ∈ getDependencies env fileName options <;>
      by_cases hign : getPackageName r.text ∈ options.ignore <;>
        simp [walkAux, findingFor, warnCond, hrel, hbi, hdep, hign, ih2, ihn]

theorem filterMap_filter_eq_nil {α β : Type} (p : α → Bool) (f : α → Option β)
    (h : ∀ a, p a = true → f a = none) (l : List α) :
    (l.filter p).filterMap f = [] := by
  induction l with
  | nil => rfl
  | cons a as ih =>
    cases hp : p a
    · simp [List.filter_cons, hp, ih]
    · simp [List.filter_cons, hp, h a hp, ih]

theorem findPackageJsonFuel_spec (ex : List String → Bool) (current : List String) :
    findPackageJsonFuel ex (current.length + 1) current = some (findPackageJson ex current) := by
  induction current with
  | nil =>
    cases hb : ex ["package.json"] <;>
      simp [findPackageJsonFuel, findPackageJson, hb]
  | cons d parent ih =>
    show (if ex ("package.json" :: d :: parent) then some (some ("package.json" :: d :: parent))
        else findPackageJsonFuel ex (parent.length + 1) parent) =
      some (findPackageJson ex (d :: parent))
    cases hb : ex ("package.json" :: d :: parent) <;>
      simp [findPackageJson, hb, ih]

theorem findPackageJson_eq_find (ex : List String → Bool) (current : List String) :
    findPackageJson ex current =
      ((ancestors current).map (fun d => "package.json" :: d)).find? ex := by
  induction current with
  | nil =>
    cases hb : ex ["package.json"] <;>
      simp [findPackageJson, ancestors, List.find?, hb]
  | cons d parent ih =>
    cases hb : ex ("package.json" :: d :: parent) <;>
      simp [findPackageJson, ancestors, List.find?, hb, ih]

theorem splitSlash_of_no_slash (l : List Char) (h : '/' ∉ l) :
    splitSlash l = [String.mk l] := by
  induction l with
  | nil => rfl
  | cons c cs ih =>
    have hc : (c == '/') = false := by
      have : c ≠ '/' := fun hcc => h (hcc ▸ List.mem_cons_self c cs)
      simpa using this
    have hcs : '/' ∉ cs := fun hm => h (List.mem_cons_of_mem c hm)
    simp [splitSlash, hc, ih hcs]

theorem walkAux_count_le (env : Env) (fileName : List String) (options : Options)
    (refs : List Ref) :
    ∀ (cache : Option (List String)) (count : Nat),
      (walkAux env fileName options refs cache count).2.2 ≤
        count + (if cache.isSome then 0 else 1) := by
  induction refs with
  | nil =>
    intro cache count
    simp [walkAux]
  | cons r rs ih =>
    intro cache count
    cases cache with
    | none =>
      have h1 : (walkAux env fileName options rs none count).2.2 ≤ count + 1 := by
        simpa using ih none count
      have h2 : (walkAux env fileName options rs
          (some (getDependencies env fileName options)) (count + 1)).2.2 ≤ count + 1 := by
        simpa using ih (some (getDependencies env fileName options)) (count + 1)
      by_cases hrel : env.isExternalModuleNameRelative r.text = true <;>
        by_cases hbi : getPackageName r.text ∈ env.builtins <;>
        by_cases hdep : getPackageName r.text ∈ getDependencies env fileName options <;>
        by_cases hign : getPackageName r.text ∈ options.ignore <;>
          simp [walkAux, hrel, hbi, hdep, hign] <;> omega
    | some val =>
      have h1 : (walkAux env fileName options rs (some val) count).2.2 ≤ count := by
        simpa using ih (some val) count
      by_cases hrel : env.isExternalModuleNameRelative r.text = true <;>
        by_cases hbi : getPackageName r.text ∈ env.builtins <;>
        by_cases hdep : getPackageName r.text ∈ val <;>
        by_cases hign : getPackageName r.text ∈ options.ignore <;>
          simp [walkAux, hrel, hbi, hdep, hign] <;> omega

theorem walkAux_cache_inv (env : Env) (fileName : List String) (options : Options)
    (refs : List Ref) :
    ∀ (cache : Option (List String)) (count : Nat),
      (cache = none ∨ cache = some (getDependencies env fileName options)) →
      ((walkAux env fileName options refs cache count).2.1 = none ∨
        (walkAux env fileName options refs cache count).2.1 =
          some (getDependencies env fileName options)) := by
  induction refs with
  | nil =>
    intro cache count h
    simpa [walkAux] using h
  | cons r rs ih =>
    intro cache count h
    have ih2 := fun count2 => ih (some (getDependencies env fileName options)) count2 (Or.inr rfl)
    have ihn := fun count2 => ih none count2 (Or.inl rfl)
    rcases h with h | h <;> subst h <;>
      by_cases hrel : env.isExternalModuleNameRelative r.text = true <;>
      by_cases hbi : getPackageName r.text ∈ env.builtins <;>
      by_cases hdep : getPackageName r.text ∈ getDependencies env fileName options <;>
      by_cases hign : getPackageName r.text ∈ options.ignore <;>
        simp [walkAux, hrel, hbi, hdep, hign] <;>
        first
        | exact ih2 _
        | exact ihn _

/-- C1: for every reference extracted from the source file, `walk` emits a
Finding exactly when the reference is not relative, its derived package
name is not a builtin, not in the resolved dependency set, and not in
`options.ignore` (the test `warnCond`); each Finding is anchored at that
reference's location and carries the `FAILURE_STRING_FACTORY` message
"Module '<name>' is not listed as dependency in package.json"; Findings
appear in source-text order, and the same package referenced twice yields
two Findings: the emitted list is exactly the order-preserving `filterMap`
of the per-reference classification `findingFor` over the references. -/
theorem walk_findings_exact (env : Env) (ctx : Ctx) :
    (walk env ctx).1 =
      ctx.refs.filterMap
        (findingFor env (getDependencies env ctx.fileName ctx.options) ctx.options) :=
  walkAux_findings_eq env ctx.fileName ctx.options ctx.refs none 0 (Or.inl rfl)

/-- C2: when the manifest is found and parses, the resolved dependency set
holds exactly the keys of `dependencies` unconditionally, of
`devDependencies` if `options.dev` and otherwise of `peerDependencies`
(strictly either/or, never both), and of `optionalDependencies` exactly
when `options.optional`. -/
theorem getDependencies_sections (env : Env) (fileName : List String) (options : Options)
    (p : List String) (c : PackageJson)
    (hfind : findPackageJson env.pathExists fileName.tail = some p)
    (hread : env.readPackageJson p = some c) (m : String) :
    m ∈ getDependencies env fileName options ↔
      m ∈ c.dependencies.getD [] ∨
        (if options.dev = true then m ∈ c.devDependencies.getD []
          else m ∈ c.peerDependencies.getD []) ∨
        (options.optional = true ∧ m ∈ c.optionalDependencies.getD []) := by
  obtain ⟨d, dv, pe, op⟩ := c
  obtain ⟨dev, opt, ign⟩ := options
  simp only [getDependencies, hfind, hread]
  cases dev <;> cases opt <;> cases d <;> cases dv <;> cases pe <;> cases op <;>
    simp [addDependencies]

/-- Witness for C2 at a concrete environment, manifest and options. -/
theorem getDependencies_sections_witness :
    "b" ∈ getDependencies
        ⟨fun _ => true,
          fun _ => some ⟨some ["a"], some ["b"], some ["c"], some ["d"]⟩,
          fun _ => false, []⟩ ["f.ts", "src"] ⟨true, true, []⟩ ↔
      "b" ∈ (some ["a"] : Option (List String)).getD [] ∨
        (if (true : Bool) = true then "b" ∈ (some ["b"] : Option (List String)).getD []
          else "b" ∈ (some ["c"] : Option (List String)).getD []) ∨
        ((true : Bool) = true ∧ "b" ∈ (some ["d"] : Option (List String)).getD []) :=
  getDependencies_sections
    ⟨fun _ => true,
      fun _ => some ⟨some ["a"], some ["b"], some ["c"], some ["d"]⟩,
      fun _ => false, []⟩
    ["f.ts", "src"] ⟨true, true, []⟩ ["package.json", "src"]
    ⟨some ["a"], some ["b"], some ["c"], some ["d"]⟩ rfl rfl "b"

/-- C3: the derived package name is what the spec states: the first
slash-delimited segment for a text not starting with `@`, and the first
two segments joined by a slash for a text starting with `@` (whenever a
second segment exists; a scoped text with no slash at all is the subject
of C10). -/
theorem getPackageName_matches_spec (name : String)
    (h : name.data.head? = some '@' → 2 ≤ (splitSlash name.data).length) :
    getPackageName name = specPackageName name := by
  by_cases hat : name.data.head? = some '@'
  · obtain ⟨a, b, rest, hs⟩ : ∃ a b rest, splitSlash name.data = a :: b :: rest := by
      have h2 := h hat
      rcases hs : splitSlash name.data with _ | ⟨a, _ | ⟨b, rest⟩⟩
      · rw [hs] at h2
        simp at h2
      · rw [hs] at h2
        simp at h2
      · exact ⟨a, b, rest, rfl⟩
    have hi : String.intercalate "/" [a, b] = a ++ "/" ++ b := rfl
    simp [getPackageName, specPackageName, hat, hs, templatePart, hi]
  · simp [getPackageName, specPackageName, hat]

/-- Witness for C3 at the spec's two examples. -/
theorem getPackageName_matches_spec_witness :
    (getPackageName "lodash/fp" = specPackageName "lodash/fp" ∧
        specPackageName "lodash/fp" = "lodash") ∧
      getPackageName "@scope/pkg/sub" = specPackageName "@scope/pkg/sub" ∧
        specPackageName "@scope/pkg/sub" = "@scope/pkg" :=
  ⟨⟨getPackageName_matches_spec "lodash/fp" (by decide), by decide⟩,
    getPackageName_matches_spec "@scope/pkg/sub" (by decide), by decide⟩

/-- C4: if the located manifest fails to read or parse (for any reason),
the resolver returns the empty set — the same result as when no manifest
exists — and no error is propagated (the embedding is total). -/
theorem getDependencies_soft_fail (env misEnv : Env) (fileName : List String)
    (options : Options) (p : List String)
    (hfind : findPackageJson env.pathExists fileName.tail = some p)
    (hread : env.readPackageJson p = none)
    (hmiss : findPackageJson misEnv.pathExists fileName.tail = none) :
    getDependencies env fileName options = [] ∧
      getDependencies env fileName options = getDependencies misEnv fileName options := by
  have h1 : getDependencies env fileName options = [] := by
    simp [getDependencies, hfind, hread]
  have h2 : getDependencies misEnv fileName options = [] := by
    simp [getDependencies, hmiss]
  exact ⟨h1, h1.trans h2.symm⟩

/-- Witness for C4: a manifest that exists everywhere but never parses,
against an environment with no manifest at all. -/
theorem getDependencies_soft_fail_witness :
    getDependencies ⟨fun _ => true, fun _ => none, fun _ => false, []⟩
        ["f.ts", "src"] ⟨false, false, []⟩ = [] ∧
      getDependencies ⟨fun _ => true, fun _ => none, fun _ => false, []⟩
          ["f.ts", "src"] ⟨false, false, []⟩ =
        getDependencies ⟨fun _ => false, fun _ => none, fun _ => false, []⟩
          ["f.ts", "src"] ⟨false, false, []⟩ :=
  getDependencies_soft_fail ⟨fun _ => true, fun _ => none, fun _ => false, []⟩
    ⟨fun _ => false, fun _ => none, fun _ => false, []⟩ ["f.ts", "src"] ⟨false, false, []⟩
    ["package.json", "src"] rfl rfl rfl

/-- C5: the upward manifest search terminates: the do-while loop exits
within `current.length + 1` iterations with the same answer as the
recursive model; the answer is the first ancestor directory (inclusive,
down to the root) whose manifest exists; and when no ancestor has one the
resolver returns the empty dependency set. -/
theorem findPackageJson_terminates (ex : List String → Bool) (current : List String)
    (env : Env) (fileName : List String) (options : Options)
    (hmiss : findPackageJson env.pathExists fileName.tail = none) :
    findPackageJsonFuel ex (current.length + 1) current = some (findPackageJson ex current) ∧
      findPackageJson ex current =
        ((ancestors current).map (fun d => "package.json" :: d)).find? ex ∧
      getDependencies env fileName options = [] := by
  refine ⟨findPackageJsonFuel_spec ex current, findPackageJson_eq_find ex current, ?_⟩
  simp [getDependencies, hmiss]

/-- Witness for C5 at a two-level directory with no manifest anywhere. -/
theorem findPackageJson_terminates_witness :
    findPackageJsonFuel (fun _ => false) (["a", "b"].length + 1) ["a", "b"] =
        some (findPackageJson (fun _ => false) ["a", "b"]) ∧
      findPackageJson (fun _ => false) ["a", "b"] =
        ((ancestors ["a", "b"]).map (fun d => "package.json" :: d)).find? (fun _ => false) ∧
      getDependencies ⟨fun _ => false, fun _ => none, fun _ => false, []⟩
        ["f.ts", "src"] ⟨false, false, []⟩ = [] :=
  findPackageJson_terminates (fun _ => false) ["a", "b"]
    ⟨fun _ => false, fun _ => none, fun _ => false, []⟩ ["f.ts", "src"] ⟨false, false, []⟩ rfl

/-- C6: during one file's walk the dependency set is computed at most once
— the final call count of `getDependencies` is at most 1 — and the memo
cell only ever holds the once-computed set. -/
theorem walk_computes_dependencies_at_most_once (env : Env) (ctx : Ctx) :
    (walk env ctx).2.2 ≤ 1 ∧
      ((walk env ctx).2.1 = none ∨
        (walk env ctx).2.1 = some (getDependencies env ctx.fileName ctx.options)) :=
  ⟨by simpa using walkAux_count_le env ctx.fileName ctx.options ctx.refs none 0,
    walkAux_cache_inv env ctx.fileName ctx.options ctx.refs none 0 (Or.inl rfl)⟩

/-- C7: a reference whose derived package name is a builtin module never
produces a Finding, irrespective of the dependency set, the manifest and
`options.ignore`: keeping only the builtin-named references of any file
leaves the walk with no Findings at all. -/
theorem builtin_refs_never_reported (env : Env) (ctx : Ctx) :
    (walk env (Ctx.mk ctx.fileName
        (ctx.refs.filter (fun r => env.builtins.contains (getPackageName r.text)))
        ctx.options)).1 = [] := by
  have heq := walkAux_findings_eq env ctx.fileName ctx.options
    (ctx.refs.filter (fun r => env.builtins.contains (getPackageName r.text)))
    none 0 (Or.inl rfl)
  refine heq.trans (filterMap_filter_eq_nil _ _ ?_ ctx.refs)
  intro r hr
  have hr2 : getPackageName r.text ∈ env.builtins := by simpa using hr
  simp [findingFor, warnCond, hr2]

/-- C8: a relative/local reference never produces a Finding, regardless of
the manifest contents and of all options: keeping only the relative
references of any file leaves the walk with no Findings at all. -/
theorem relative_refs_never_reported (env : Env) (ctx : Ctx) :
    (walk env (Ctx.mk ctx.fileName
        (ctx.refs.filter (fun r => env.isExternalModuleNameRelative r.text))
        ctx.options)).1 = [] := by
  have heq := walkAux_findings_eq env ctx.fileName ctx.options
    (ctx.refs.filter (fun r => env.isExternalModuleNameRelative r.text))
    none 0 (Or.inl rfl)
  refine heq.trans (filterMap_filter_eq_nil _ _ ?_ ctx.refs)
  intro r hr
  simp [findingFor, warnCond, hr]

/-- C9: a reference whose text is the empty string derives the
empty-string package name; when that name is relative for no one, matches
no builtin, no resolved dependency and no ignore entry, the walk reports
it with the message "Module '' is not listed as dependency in
package.json" at the reference's location. -/
theorem empty_text_reported (env : Env) (fileName : List String) (options : Options)
    (loc : Nat)
    (h1 : env.isExternalModuleNameRelative "" = false)
    (h2 : ("" : String) ∉ env.builtins)
    (h3 : ("" : String) ∉ getDependencies env fileName options)
    (h4 : ("" : String) ∉ options.ignore) :
    getPackageName "" = "" ∧
      failureStringFactory "" = "Module '' is not listed as dependency in package.json" ∧
      (walk env (Ctx.mk fileName [Ref.mk "" loc] options)).1 =
        [Finding.mk loc (failureStringFactory "")] := by
  refine ⟨rfl, rfl, ?_⟩
  have heq := walkAux_findings_eq env fileName options [Ref.mk "" loc] none 0 (Or.inl rfl)
  refine heq.trans ?_
  have hpn : getPackageName "" = "" := rfl
  simp [findingFor, warnCond, hpn, h1, h2, h3, h4]

/-- Witness for C9 in an environment with an empty builtin list entry-free
of the empty string, no manifest, and empty ignore list. -/
theorem empty_text_reported_witness :
    getPackageName "" = "" ∧
      failureStringFactory "" = "Module '' is not listed as dependency in package.json" ∧
      (walk ⟨fun _ => false, fun _ => none, fun _ => false, ["fs"]⟩
          (Ctx.mk ["f.ts"] [Ref.mk "" 7] ⟨false, false, []⟩)).1 =
        [Finding.mk 7 (failureStringFactory "")] :=
  empty_text_reported ⟨fun _ => false, fun _ => none, fun _ => false, ["fs"]⟩
    ["f.ts"] ⟨false, false, []⟩ 7 rfl (by decide) (by decide) (by decide)

/-- C10: a scoped reference text beginning with `@` but containing no
slash derives the literal package name `text ++ "/undefined"` — the
missing second segment interpolates as the string "undefined" — and in
particular never equals the text itself, so it cannot match a manifest
entry named like the text. -/
theorem scoped_name_without_slash (name : String)
    (h1 : name.data.head? = some '@') (h2 : '/' ∉ name.data) :
    getPackageName name = name ++ "/undefined" ∧ getPackageName name ≠ name := by
  have hs : splitSlash name.data = [name] := splitSlash_of_no_slash name.data h2
  have hg : getPackageName name = name ++ "/" ++ "undefined" := by
    simp [getPackageName, h1, hs, templatePart]
  constructor
  · rw [hg, String.append_assoc]
    rfl
  · rw [hg]
    intro heq
    have hlen := congrArg String.length heq
    rw [String.length_append, String.length_append] at hlen
    have h10 : ("undefined" : String).length = 9 := rfl
    rw [h10] at hlen
    omega

/-- Witness for C10 at the text "@scope". -/
theorem scoped_name_without_slash_witness :
    getPackageName "@scope" = "@scope" ++ "/undefined" ∧ getPackageName "@scope" ≠ "@scope" :=
  scoped_name_without_slash "@scope" (by decide) (by decide)

end NoImplicitDependencies
